import Mathlib

/-!
Shallow embedding of the argument parser in args.go (package args) and
proofs about it.  Go strings are modelled as lists of characters; for the
ASCII flag tokens this development concerns, Go's byte-level operations and
character-level operations coincide.  The Go map of string to string slice
built by the tokenizer is modelled as an insertion-ordered association
list, matching the per-key read/write operations the code performs.
-/

namespace ArgsGo


/-- A command-line token: the list of characters of the Go string. -/
abbrev Token := List Char

/-- Conversion from a Lean string literal to a token. -/
def tk (s : String) : Token := s.toList

/-- Raw flag mapping built by rawArgsMap: association list from flag key to
the raw value tokens collected for it. -/
abbrev RawMap := List (Token × List Token)

/-- Association-list lookup; some v when the key is present.  Models the Go
two-result map read of the form d, ok := m[k]. -/
def getEntry {α : Type} : List (Token × α) → Token → Option α
  | [], _ => none
  | (k, v) :: rest, key => if k = key then some v else getEntry rest key

/-- Go map read m[k] for a map of string to string slice: the zero value
(the empty list) when the key is absent. -/
def getKey (m : RawMap) (key : Token) : List Token :=
  (getEntry m key).getD []

/-- Go map assignment m[k] = v on the association list: replaces the value
at an existing key in place, or appends a new entry at the end. -/
def setEntry {α : Type} : List (Token × α) → Token → α → List (Token × α)
  | [], key, v => [(key, v)]
  | (k, w) :: rest, key, v =>
      if k = key then (k, v) :: rest else (k, w) :: setEntry rest key v

/-- strings.HasPrefix t "-": the token begins with the short-flag marker. -/
def startsDash (t : Token) : Bool := t.headD ' ' == '-'

/-- strings.HasPrefix t "--": the token begins with the long-flag marker. -/
def startsDashDash (t : Token) : Bool :=
  startsDash t && ((t.drop 1).headD ' ' == '-')

/-- munchArgs from args.go: collect tokens from the front of the list while
they do not begin with the long-flag marker; stop at the first token that
does. -/
def munchArgs : List Token → List Token
  | [] => []
  | a :: rest => if startsDashDash a then [] else a :: munchArgs rest

/-- The cluster characters that the loop in rawArgsMap's bundled-switch
branch registers: for i from 2 to the token's length minus one it takes the
one-character slice at position i-1, that is, every character after the
marker except the last one. -/
def clusterChars (a : Token) : List Char := (a.drop 1).dropLast

/-- The loop of rawArgsMap from args.go, bounded by fuel.  The loop has no
case for a token that starts with neither marker: such a token is never
consumed and the loop body runs again on an unchanged state, which this
fueled model renders as exhausting every amount of fuel (a result of none
means the Go loop does not terminate).  Each productive iteration consumes
at least one token. -/
def rawArgsMapFuel : Nat → List Token → RawMap → Option RawMap
  | _, [], m => some m
  | 0, _ :: _, _ => none
  | fuel + 1, a :: rest, m =>
      if startsDashDash a then
        let key := a.drop 2
        let vals := munchArgs rest
        rawArgsMapFuel fuel (rest.drop vals.length)
          (setEntry m key (getKey m key ++ vals))
      else if startsDash a then
        if 2 < a.length then
          rawArgsMapFuel fuel rest
            ((clusterChars a).foldl (fun m c => setEntry m [c] []) m)
        else
          let key := a.drop 1
          let vals := munchArgs rest
          rawArgsMapFuel fuel (rest.drop vals.length)
            (setEntry m key (getKey m key ++ vals))
      else
        rawArgsMapFuel fuel (a :: rest) m

/-- rawArgsMap from args.go under the fueled loop semantics: the loop runs
at most one iteration per input token on every terminating run, so a fuel of
one more than the input length decides termination; none signals a run on
which the Go loop spins forever.  (The Go function also returns an error
value, which is always nil and is omitted here.) -/
def rawArgsMap (args : List Token) : Option RawMap :=
  rawArgsMapFuel (args.length + 1) args []

/-- The remaining input is empty or starts with a long-flag token. -/
def headIsLong : List Token → Prop
  | [] => True
  | a :: _ => startsDashDash a = true

/-- Every key of the map reads as the empty value list. -/
def allEmpty (m : RawMap) : Prop := ∀ k, getKey m k = []

/-- The ordered list of (key, values) registrations the tokenizer loop
performs: one per long flag, lone short flag, or bundled-cluster character,
under the same fueled semantics as rawArgsMapFuel. -/
def flagOccsFuel : Nat → List Token → Option (List (Token × List Token))
  | _, [] => some []
  | 0, _ :: _ => none
  | fuel + 1, a :: rest =>
      if startsDashDash a then
        (flagOccsFuel fuel (rest.drop (munchArgs rest).length)).map
          (fun os => (a.drop 2, munchArgs rest) :: os)
      else if startsDash a then
        if 2 < a.length then
          (flagOccsFuel fuel rest).map
            (fun os =>
              (clusterChars a).map (fun c => ([c], ([] : List Token))) ++ os)
        else
          (flagOccsFuel fuel (rest.drop (munchArgs rest).length)).map
            (fun os => (a.drop 1, munchArgs rest) :: os)
      else
        flagOccsFuel fuel (a :: rest)

/-- The values contributed to a given key by an occurrence list, in order. -/
def contrib (k : Token) (os : List (Token × List Token)) : List Token :=
  (os.filterMap (fun p => if p.1 = k then some p.2 else none)).flatten

/-- strings.ToLower for the ASCII field names this development concerns. -/
def lowerTok (s : Token) : Token := s.map Char.toLower

/-- The metadata extracted from a field's args struct tag. -/
structure TagData where
  Description : Token
  Required : Bool
  ShortFlag : Token
  deriving DecidableEq

/-- strings.Split on the comma separator; like Go's Split, the result always
has at least one part (the empty input yields one empty part). -/
def splitComma : Token → List Token
  | [] => [[]]
  | c :: rest =>
      if c = ',' then [] :: splitComma rest
      else
        match splitComma rest with
        | [] => [[c]]
        | p :: ps => (c :: p) :: ps

/-- parseTagData from args.go over the content of the field's args tag: the
first comma-separated part is the description; each later part that is a
two-character string starting with the short marker sets the short flag, and
each later part equal to the letter r sets the required bit. -/
def parseTagData (tag : Token) : TagData :=
  let parts := splitComma tag
  let td : TagData := ⟨parts.headD [], false, []⟩
  (parts.drop 1).foldl
    (fun td p =>
      if startsDash p && p.length == 2 then ⟨td.Description, td.Required, p.drop 1⟩
      else if p = ['r'] then ⟨td.Description, true, td.ShortFlag⟩
      else td)
    td

/-- Numeric value of a digit character in bases up to 36. -/
def digitVal (c : Char) : Option Nat :=
  if '0' ≤ c ∧ c ≤ '9' then some (c.toNat - '0'.toNat)
  else if 'a' ≤ c ∧ c ≤ 'z' then some (c.toNat - 'a'.toNat + 10)
  else if 'A' ≤ c ∧ c ≤ 'Z' then some (c.toNat - 'A'.toNat + 10)
  else none

/-- Accumulating digit reader; none on a character that is not a digit of
the base. -/
def digitsAux (base : Nat) : List Char → Nat → Option Nat
  | [], acc => some acc
  | c :: rest, acc =>
      match digitVal c with
      | some d => if d < base then digitsAux base rest (acc * base + d) else none
      | none => none

/-- Reads a nonempty digit string in the given base. -/
def digitsToNat (base : Nat) (s : List Char) : Option Nat :=
  match s with
  | [] => none
  | _ => digitsAux base s 0

/-- Model of the Go standard library's unsigned integer literal syntax as
used through strconv.ParseUint with base 0 (a standard-library boundary of
the code).  An optional base marker 0x, 0o or 0b selects the base, a
remaining leading zero selects the legacy octal base, otherwise the base is
ten; no sign is permitted.  Underscore digit separators are not modelled.
The magnitude is returned without any width check. -/
def parseUnsigned (s : Token) : Option Nat :=
  match s with
  | '0' :: x :: rest =>
      if x = 'x' ∨ x = 'X' then digitsToNat 16 rest
      else if x = 'o' ∨ x = 'O' then digitsToNat 8 rest
      else if x = 'b' ∨ x = 'B' then digitsToNat 2 rest
      else digitsToNat 8 (x :: rest)
  | _ => digitsToNat 10 s

/-- strconv.ParseUint with base 0 and the given bit size: the unsigned
syntax, range-checked; none where Go reports an error. -/
def parseUintGo (s : Token) (bits : Nat) : Option Nat :=
  match parseUnsigned s with
  | some n => if n < 2 ^ bits then some n else none
  | none => none

/-- strconv.ParseInt with base 0 and the given bit size: an optional leading
sign followed by the unsigned syntax, range-checked against the signed
width; none where Go reports an error. -/
def parseIntGo (s : Token) (bits : Nat) : Option Int :=
  let signed : Option (Bool × Nat) :=
    match s with
    | '+' :: r => (parseUnsigned r).map (fun n => (false, n))
    | '-' :: r => (parseUnsigned r).map (fun n => (true, n))
    | r => (parseUnsigned r).map (fun n => (false, n))
  match signed with
  | none => none
  | some (neg, n) =>
      if neg then
        if n ≤ 2 ^ (bits - 1) then some (-(n : Int)) else none
      else
        if n < 2 ^ (bits - 1) then some (n : Int) else none

/-- Decimal digit test. -/
def isDigit (c : Char) : Bool := '0' ≤ c && c ≤ '9'

/-- Decimal mantissa with optional fraction and exponent, at least one
mantissa digit required. -/
def floatBody (s : Token) : Bool :=
  let ds := s.takeWhile isDigit
  let r1 := s.dropWhile isDigit
  let fs :=
    match r1 with
    | '.' :: r => r.takeWhile isDigit
    | _ => []
  let r2 :=
    match r1 with
    | '.' :: r => r.dropWhile isDigit
    | _ => r1
  if ds.length + fs.length == 0 then false
  else
    match r2 with
    | [] => true
    | e :: r3 =>
        if e == 'e' || e == 'E' then
          let r4 :=
            match r3 with
            | '+' :: r => r
            | '-' :: r => r
            | r => r
          !r4.isEmpty && r4.all isDigit
        else false

/-- Model of the floating-point literal syntax accepted by the Go standard
library's strconv.ParseFloat (a standard-library boundary of the code): an
optional sign, then inf or infinity (any case) or a decimal mantissa with an
optional exponent; the bare word nan is also accepted.  Hexadecimal floats,
underscore separators and the overflow range error are not modelled, and
only acceptance is modelled; an accepted value is kept as its literal. -/
def parseFloatGo (s : Token) : Bool :=
  if lowerTok s == tk "nan" then true
  else
    let body :=
      match s with
      | '+' :: r => r
      | '-' :: r => r
      | r => r
    (lowerTok body == tk "inf") || (lowerTok body == tk "infinity") ||
      floatBody body

/-- The field and element types the parser dispatches on (the reflect kinds
of args.go); ptr is the nullable wrapper, other stands for every kind the
switch statements do not handle. -/
inductive GoType where
  | str
  | bool
  | int (bits : Nat)
  | uint (bits : Nat)
  | float (bits : Nat)
  | slice (elem : GoType)
  | ptr (elem : GoType)
  | other
  deriving DecidableEq

/-- Runtime values of the supported field types.  Floats are abstracted to
the literal that parsed, the empty literal standing for the zero value; a
ptr value models a Go pointer field, none being the nil pointer. -/
inductive GoVal where
  | str (s : Token)
  | bool (b : Bool)
  | int (n : Int)
  | uint (n : Nat)
  | float (lit : Token)
  | slice (elems : List GoVal)
  | ptr (v : Option GoVal)
  | other

/-- The Go zero value of each supported type, what reflect.New allocates. -/
def zeroVal : GoType → GoVal
  | .str => .str []
  | .bool => .bool false
  | .int _ => .int 0
  | .uint _ => .uint 0
  | .float _ => .float []
  | .slice _ => .slice []
  | .ptr _ => .ptr none
  | .other => .other

/-- The error outcomes of args.go, abstracted from their message strings to
their kind and the name or literal they report. -/
inductive ArgsError where
  | notSet (name : Token)
  | moreThanOnce (name : Token)
  | requiredNotSupplied (name : Token)
  | boolHasParameter (name : Token)
  | numError (lit : Token)
  | unsupportedType
  | unsupportedSliceType
  | mapMoreThanOnce (key : Token)
  deriving DecidableEq

/-- checkArgLen from args.go: an error unless exactly one value is given. -/
def checkArgLen (data : List Token) (name : Token) : Option ArgsError :=
  if data.length = 0 then some (.notSet name)
  else if 1 < data.length then some (.moreThanOnce name)
  else none

/-- Per-element conversion for fillSlice, stopping at the first failing
element with its error (the Go loop returns there and never reaches the
final assignment of the freshly built slice). -/
def mapOrFirstErr (f : Token → Option GoVal) :
    List Token → Except ArgsError (List GoVal)
  | [] => .ok []
  | s :: rest =>
      match f s with
      | none => .error (.numError s)
      | some v => (mapOrFirstErr f rest).map (fun vs => v :: vs)

/-- fillSlice from args.go: builds a fresh slice from the tokens according
to the element kind and assigns it at the end; on any element error the
destination is left untouched and the error is returned. -/
def fillSliceGo (elem : GoType) (args : List Token) (v : GoVal) :
    GoVal × Option ArgsError :=
  match elem with
  | .str => (.slice (args.map GoVal.str), none)
  | .int bits =>
      match mapOrFirstErr (fun s => (parseIntGo s bits).map GoVal.int) args with
      | .ok elems => (.slice elems, none)
      | .error e => (v, some e)
  | .uint bits =>
      match mapOrFirstErr (fun s => (parseUintGo s bits).map GoVal.uint) args with
      | .ok elems => (.slice elems, none)
      | .error e => (v, some e)
  | .float _ =>
      match mapOrFirstErr
          (fun s => if parseFloatGo s then some (GoVal.float s) else none)
          args with
      | .ok elems => (.slice elems, none)
      | .error e => (v, some e)
  | _ => (v, some .unsupportedSliceType)

/-- A record field of the destination struct: its Go name, whether it is
exported, whether it is embedded (anonymous), the content of its args
struct tag, and its type. -/
structure Field where
  name : Token
  exported : Bool
  anonymous : Bool
  tag : Token
  type : GoType
  deriving DecidableEq

/-- A record under parsing: each field paired with its current value.  The
initial record carries the caller-supplied defaults; parsing mutates the
values in place, field by field. -/
abbrev Record := List (Field × GoVal)

/-- The key a record field is looked up by: its lowercased name. -/
def lowerName (f : Field) : Token := lowerTok f.name

/-- The switch statement of parseStruct over the (pointer-unwrapped) field
type: checks the argument cardinality, converts the single raw value, and
returns the new field value together with the error, if any; every error
path leaves the value as given. -/
def coerceAssign (t : GoType) (data : List Token) (name : Token)
    (v : GoVal) : GoVal × Option ArgsError :=
  match t with
  | .str =>
      match checkArgLen data name with
      | some e => (v, some e)
      | none => (.str (data.headD []), none)
  | .bool =>
      if data.length ≠ 0 then (v, some (.boolHasParameter name))
      else (.bool true, none)
  | .int bits =>
      match checkArgLen data name with
      | some e => (v, some e)
      | none =>
          match parseIntGo (data.headD []) bits with
          | none => (v, some (.numError (data.headD [])))
          | some n => (.int n, none)
  | .uint bits =>
      match checkArgLen data name with
      | some e => (v, some e)
      | none =>
          match parseUintGo (data.headD []) bits with
          | none => (v, some (.numError (data.headD [])))
          | some n => (.uint n, none)
  | .float _ =>
      match checkArgLen data name with
      | some e => (v, some e)
      | none =>
          if parseFloatGo (data.headD []) then (.float (data.headD []), none)
          else (v, some (.numError (data.headD [])))
  | .slice elem => fillSliceGo elem data v
  | _ => (v, some .unsupportedType)

/-- The body of parseStruct's field loop: skip unexported or embedded
fields; look the field up in the raw flag map by lowercased name, then by
the tag's short flag; if neither is present, skip silently unless the tag
marks the field required, in which case fail naming the field; if found and
the field is pointer-typed, allocate fresh zero-valued storage for it at
once (before any value checking) and work on the pointee; finally dispatch
to the type switch. -/
def parseField (raw : RawMap) (f : Field) (v : GoVal) :
    GoVal × Option ArgsError :=
  if !f.exported || f.anonymous then (v, none)
  else
    let name := lowerName f
    let td := parseTagData f.tag
    let dataFound :=
      match getEntry raw name with
      | some d => some d
      | none => getEntry raw td.ShortFlag
    match dataFound with
    | none =>
        if td.Required then (v, some (.requiredNotSupplied name))
        else (v, none)
    | some data =>
        match f.type with
        | .ptr t =>
            let r := coerceAssign t data name (zeroVal t)
            (.ptr (some r.1), r.2)
        | t => coerceAssign t data name v

/-- The field loop of parseStruct: fields are processed in declaration
order; the first error aborts the walk, keeping every assignment made so
far (the caller's struct is mutated in place). -/
def parseFields (raw : RawMap) : Record → Record × Option ArgsError
  | [] => ([], none)
  | (f, v) :: rest =>
      match parseField raw f v with
      | (v', some e) => ((f, v') :: rest, some e)
      | (v', none) =>
          let r := parseFields raw rest
          ((f, v') :: r.1, r.2)

/-- parseStruct from args.go: build the raw flag map with the tokenizer,
then walk the fields; none models a call that never returns because the
tokenizer loops forever. -/
def parseStructGo (rec : Record) (args : List Token) :
    Option (Record × Option ArgsError) :=
  (rawArgsMap args).map (fun raw => parseFields raw rec)

/-- Destination of the string-valued dictionary branch. -/
abbrev StrMap := List (Token × Token)

/-- A value of the dynamic (interface-valued) dictionary branch. -/
inductive DynVal where
  | int (n : Int)
  | float (lit : Token)
  | str (s : Token)
  | present
  | list (vs : List Token)
  deriving DecidableEq

/-- Destination of the dynamic-valued dictionary branch. -/
abbrev DynMap := List (Token × DynVal)

/-- The single-value inference of parseMap's interface branch: try a 64-bit
integer parse, then a 64-bit float parse, otherwise keep the string. -/
def dynCoerce (v : Token) : DynVal :=
  match parseIntGo v 64 with
  | some n => .int n
  | none => if parseFloatGo v then .float v else .str v

/-- The value the interface branch of parseMap stores for a key, by the
number of raw values it collected. -/
def ifaceVal : List Token → DynVal
  | [] => .present
  | [v] => dynCoerce v
  | vs => .list vs

/-- The string-valued branch of parseMap from args.go: each key is assigned
its first raw value (the empty string when it has none) before the
more-than-once check runs, so the assignment lands even when the error is
returned; the error aborts the iteration. -/
def parseMapString (raw : RawMap) (m : StrMap) : StrMap × Option ArgsError :=
  match raw with
  | [] => (m, none)
  | (k, vs) :: rest =>
      let m' :=
        match vs with
        | [] => setEntry m k []
        | v :: _ => setEntry m k v
      if 1 < vs.length then (m', some (.mapMoreThanOnce k))
      else parseMapString rest m'

/-- The interface-valued branch of parseMap from args.go: zero raw values
give a presence marker, one gives the inferred scalar, several give the raw
value list; this branch has no error path. -/
def parseMapIface (raw : RawMap) (m : DynMap) : DynMap × Option ArgsError :=
  match raw with
  | [] => (m, none)
  | (k, vs) :: rest =>
      let m' :=
        match vs with
        | [] => setEntry m k DynVal.present
        | [v] => setEntry m k (dynCoerce v)
        | _ => setEntry m k (DynVal.list vs)
      parseMapIface rest m'

/-- parseMap for a string-valued dictionary, including the tokenizer. -/
def parseMapStringGo (m : StrMap) (args : List Token) :
    Option (StrMap × Option ArgsError) :=
  (rawArgsMap args).map (fun raw => parseMapString raw m)

/-- parseMap for a dynamic-valued dictionary, including the tokenizer. -/
def parseMapIfaceGo (m : DynMap) (args : List Token) :
    Option (DynMap × Option ArgsError) :=
  (rawArgsMap args).map (fun raw => parseMapIface raw m)

/-- munchArgs takes the whole list when no element begins with the long-flag
marker. -/
theorem munchArgs_all (vs : List Token)
    (h : ∀ v ∈ vs, startsDashDash v = false) : munchArgs vs = vs := by
  induction vs with
  | nil => rfl
  | cons a rest ih =>
      have ha := h a (List.mem_cons_self a rest)
      simp [munchArgs, ha, ih (fun v hv => h v (List.mem_cons_of_mem a hv))]

/-- C1: for every destination and every finite token list, a parse/dispatch
call terminates; in particular the tokenizer is total, and a top-level token
beginning with neither marker is skipped and absent from the result.
VERDICT: the code violates this.  The loop in rawArgsMap has no branch for
such a token, so the token is never consumed and the loop body repeats on an
unchanged state forever.  This theorem shows the fueled loop semantics fails
for every amount of fuel once such a token is at the front of the remaining
input, i.e. the Go loop does not terminate there. -/
theorem rawArgsMap_stuck_token_diverges (fuel : Nat) (a : Token)
    (rest : List Token) (m : RawMap) (h : startsDash a = false) :
    rawArgsMapFuel fuel (a :: rest) m = none := by
  induction fuel with
  | zero => rfl
  | succ n ih =>
      have h2 : startsDashDash a = false := by simp [startsDashDash, h]
      simp [rawArgsMapFuel, h, h2, ih]

/-- Witness for the divergence theorem: on the single stray token "foo" the
tokenizer loop makes no progress under any concrete fuel. -/
theorem rawArgsMap_stuck_token_diverges_witness :
    rawArgsMapFuel 100 [tk "foo"] [] = none :=
  rawArgsMap_stuck_token_diverges 100 (tk "foo") [] [] (by decide)

/-- C2 counterexample: the claim predicts that in the bundled cluster "-ab"
the final character b behaves as a normal short flag and munches the
following non-long-flag token "-cd" (giving entries a with no values and b
with value "-cd").  The code instead registers only the characters before
the last one of each cluster: the result has entries for a and c only, b is
never registered and munches nothing. -/
theorem cluster_counterexample :
    rawArgsMap [tk "-ab", tk "-cd"] = some [(tk "a", []), (tk "c", [])] ∧
      getEntry ([(tk "a", []), (tk "c", [])] : RawMap) (tk "b") = none := by
  exact ⟨by decide, by decide⟩

/-- C2 amended: a bundled short-switch cluster token (short marker followed
by at least two characters) registers one empty-value entry per character
except the last, each by an overwriting map assignment; the final character
is not registered at all and consumes no following tokens; the cluster is
consumed as a single token and the loop continues with the next token. -/
theorem cluster_registers_all_but_last (fuel : Nat) (cs : List Char)
    (rest : List Token) (m : RawMap) (h2 : 2 ≤ cs.length)
    (hd : startsDash cs = false) :
    rawArgsMapFuel (fuel + 1) (('-' :: cs) :: rest) m =
      rawArgsMapFuel fuel rest
        (cs.dropLast.foldl (fun m c => setEntry m [c] []) m) := by
  have hdd : startsDashDash ('-' :: cs) = false := by
    simpa [startsDashDash, startsDash] using hd
  have hds : startsDash ('-' :: cs) = true := by simp [startsDash]
  have hl : 2 < ('-' :: cs).length := by
    simp only [List.length_cons]
    omega
  simp [rawArgsMapFuel, hdd, hds, hl, clusterChars]
  intro hc
  exact absurd h2 (by omega)

/-- Witness for the amended cluster theorem at the concrete cluster "-abc"
followed by nothing. -/
theorem cluster_registers_all_but_last_witness :
    rawArgsMapFuel 2 [tk "-abc"] [] =
      rawArgsMapFuel 1 []
        ((tk "abc").dropLast.foldl (fun m c => setEntry m [c] []) []) :=
  cluster_registers_all_but_last 1 (tk "abc") [] [] (by decide) (by decide)

/-- C4: for every token sequence beginning with a long flag whose following
tokens are all non-long-flag tokens, the tokenizer yields exactly the one
mapping from the stripped key to those tokens in order; in particular a
short-flag-shaped token among them is munched as a bare value. -/
theorem long_flag_munches_all (k : Token) (vs : List Token)
    (h : ∀ v ∈ vs, startsDashDash v = false) :
    rawArgsMap (('-' :: '-' :: k) :: vs) = some [(k, vs)] := by
  have hm := munchArgs_all vs h
  have hdd : startsDashDash ('-' :: '-' :: k) = true := by
    simp [startsDashDash, startsDash]
  simp only [rawArgsMap, List.length_cons, rawArgsMapFuel, hdd, if_pos, hm,
    List.drop_length]
  rfl

/-- Witness: the long flag "--k" collects the plain value "v" and the
short-flag-shaped token "-x" as its two values. -/
theorem long_flag_munches_all_witness :
    rawArgsMap [tk "--k", tk "v", tk "-x"] =
      some [(tk "k", [tk "v", tk "-x"])] :=
  long_flag_munches_all (tk "k") [tk "v", tk "-x"] (by decide)

/-- Lookup after an assignment at the same key yields the new value. -/
theorem getEntry_setEntry_self {α : Type} (m : List (Token × α)) (k : Token)
    (v : α) : getEntry (setEntry m k v) k = some v := by
  induction m with
  | nil => simp [setEntry, getEntry]
  | cons p rest ih =>
      obtain ⟨k0, w⟩ := p
      by_cases h : k0 = k
      · simp [setEntry, getEntry, h]
      · simp [setEntry, getEntry, h, ih]

/-- Lookup at another key is unaffected by an assignment. -/
theorem getEntry_setEntry_ne {α : Type} (m : List (Token × α)) (k k' : Token)
    (v : α) (h : k ≠ k') : getEntry (setEntry m k v) k' = getEntry m k' := by
  induction m with
  | nil => simp [setEntry, getEntry, h]
  | cons p rest ih =>
      obtain ⟨k0, w⟩ := p
      by_cases h0 : k0 = k
      · subst h0
        simp [setEntry, getEntry, h]
      · simp [setEntry, getEntry, h0, ih]

/-- Go-map read after an assignment at the same key. -/
theorem getKey_setEntry_self (m : RawMap) (k : Token) (v : List Token) :
    getKey (setEntry m k v) k = v := by
  simp [getKey, getEntry_setEntry_self]

/-- Go-map read at another key after an assignment. -/
theorem getKey_setEntry_ne (m : RawMap) (k k' : Token) (v : List Token)
    (h : k ≠ k') : getKey (setEntry m k v) k' = getKey m k' := by
  simp [getKey, getEntry_setEntry_ne m k k' v h]

/-- After munching, the remaining input is empty or starts with a long-flag
token; this is the phase invariant of the tokenizer loop. -/
theorem headIsLong_munch_drop (t : List Token) :
    headIsLong (t.drop (munchArgs t).length) := by
  induction t with
  | nil => trivial
  | cons a rest ih =>
      by_cases h : startsDashDash a = true
      · simp [munchArgs, h, headIsLong]
      · simpa [munchArgs, h] using ih

/-- Assigning an empty value list preserves the all-empty invariant. -/
theorem allEmpty_setEntry (m : RawMap) (k : Token) (h : allEmpty m) :
    allEmpty (setEntry m k []) := by
  intro k'
  by_cases hk : k = k'
  · subst hk
    simp [getKey_setEntry_self]
  · rw [getKey_setEntry_ne m k k' [] hk]
    exact h k'

/-- Registering a run of cluster characters preserves the all-empty
invariant. -/
theorem allEmpty_foldl (cs : List Char) (m : RawMap) (h : allEmpty m) :
    allEmpty (cs.foldl (fun m c => setEntry m [c] []) m) := by
  induction cs generalizing m with
  | nil => exact h
  | cons c rest ih => exact ih _ (allEmpty_setEntry m [c] h)

/-- Unfolding of the tokenizer loop at a long-flag token. -/
theorem rawFuel_long (n : Nat) (a : Token) (rest : List Token) (m : RawMap)
    (h : startsDashDash a = true) :
    rawArgsMapFuel (n + 1) (a :: rest) m =
      rawArgsMapFuel n (rest.drop (munchArgs rest).length)
        (setEntry m (a.drop 2) (getKey m (a.drop 2) ++ munchArgs rest)) := by
  simp [rawArgsMapFuel, h]

/-- Unfolding of the tokenizer loop at a bundled cluster token. -/
theorem rawFuel_cluster (n : Nat) (a : Token) (rest : List Token) (m : RawMap)
    (h1 : startsDashDash a = false) (h2 : startsDash a = true)
    (h3 : 2 < a.length) :
    rawArgsMapFuel (n + 1) (a :: rest) m =
      rawArgsMapFuel n rest
        ((clusterChars a).foldl (fun m c => setEntry m [c] []) m) := by
  simp [rawArgsMapFuel, h1, h2, h3]

/-- Unfolding of the tokenizer loop at a lone short-flag token. -/
theorem rawFuel_short (n : Nat) (a : Token) (rest : List Token) (m : RawMap)
    (h1 : startsDashDash a = false) (h2 : startsDash a = true)
    (h3 : ¬ 2 < a.length) :
    rawArgsMapFuel (n + 1) (a :: rest) m =
      rawArgsMapFuel n (rest.drop (munchArgs rest).length)
        (setEntry m (a.drop 1) (getKey m (a.drop 1) ++ munchArgs rest)) := by
  simp [rawArgsMapFuel, h1, h2, h3]

/-- Unfolding of the tokenizer loop at a token with neither marker: the
state does not change, only fuel is spent. -/
theorem rawFuel_stuck (n : Nat) (a : Token) (rest : List Token) (m : RawMap)
    (h : startsDash a = false) :
    rawArgsMapFuel (n + 1) (a :: rest) m = rawArgsMapFuel n (a :: rest) m := by
  have h1 : startsDashDash a = false := by simp [startsDashDash, h]
  simp [rawArgsMapFuel, h1, h]

theorem contrib_cons (k k' : Token) (vs : List Token)
    (os : List (Token × List Token)) :
    contrib k ((k', vs) :: os) =
      (if k' = k then vs else []) ++ contrib k os := by
  by_cases h : k' = k <;> simp [contrib, h]

theorem contrib_append (k : Token) (os1 os2 : List (Token × List Token)) :
    contrib k (os1 ++ os2) = contrib k os1 ++ contrib k os2 := by
  simp [contrib]

/-- Cluster registrations contribute no values to any key. -/
theorem contrib_empties (k : Token) (cs : List Char) :
    contrib k (cs.map (fun c => ([c], ([] : List Token)))) = [] := by
  induction cs with
  | nil => rfl
  | cons c rest ih => simp [contrib_cons, ih]

/-- Generalized accumulation invariant of the tokenizer: starting from a map
whose keys all read empty, or from a remaining input whose head is a long
flag, the final value list of every key is the start value list followed by
the concatenation of the values contributed by each registration in order.
The bundled-cluster branch overwrites rather than appends, but the loop
structure only reaches it while every key still reads empty, so the
overwrite is indistinguishable from an append. -/
theorem c3_aux (fuel : Nat) : ∀ (args : List Token) (m0 res : RawMap)
    (os : List (Token × List Token)),
    (allEmpty m0 ∨ headIsLong args) →
    rawArgsMapFuel fuel args m0 = some res →
    flagOccsFuel fuel args = some os →
    ∀ k, getKey res k = getKey m0 k ++ contrib k os := by
  induction fuel with
  | zero =>
      intro args m0 res os _ hr ho k
      cases args with
      | nil =>
          simp [rawArgsMapFuel] at hr
          simp [flagOccsFuel] at ho
          subst hr
          subst ho
          simp [contrib]
      | cons a rest => simp [rawArgsMapFuel] at hr
  | succ n ih =>
      intro args m0 res os H hr ho k
      cases args with
      | nil =>
          simp [rawArgsMapFuel] at hr
          simp [flagOccsFuel] at ho
          subst hr
          subst ho
          simp [contrib]
      | cons a rest =>
          by_cases hdd : startsDashDash a = true
          · rw [rawFuel_long n a rest m0 hdd] at hr
            rw [show flagOccsFuel (n + 1) (a :: rest) =
                (flagOccsFuel n (rest.drop (munchArgs rest).length)).map
                  (fun os => (a.drop 2, munchArgs rest) :: os) from by
              simp [flagOccsFuel, hdd]] at ho
            obtain ⟨os', ho', rfl⟩ := Option.map_eq_some'.mp ho
            have hrec := ih (rest.drop (munchArgs rest).length) _ res os'
              (Or.inr (headIsLong_munch_drop rest)) hr ho' k
            rw [hrec, contrib_cons]
            by_cases hk : a.drop 2 = k
            · subst hk
              rw [getKey_setEntry_self]
              simp [List.append_assoc]
            · rw [getKey_setEntry_ne m0 _ _ _ hk]
              simp [hk]
          · by_cases hds : startsDash a = true
            · have hdd' : startsDashDash a = false := by
                simpa using hdd
              by_cases hlen : 2 < a.length
              · cases H with
                | inr hlong =>
                    exact absurd (by simpa [headIsLong] using hlong) hdd
                | inl hein =>
                    rw [rawFuel_cluster n a rest m0 hdd' hds hlen] at hr
                    rw [show flagOccsFuel (n + 1) (a :: rest) =
                        (flagOccsFuel n rest).map
                          (fun os => (clusterChars a).map
                            (fun c => ([c], ([] : List Token))) ++ os) from by
                      simp [flagOccsFuel, hdd', hds, hlen]] at ho
                    obtain ⟨os', ho', rfl⟩ := Option.map_eq_some'.mp ho
                    have hein' :=
                      allEmpty_foldl (clusterChars a) m0 hein
                    have hrec := ih rest _ res os' (Or.inl hein') hr ho' k
                    rw [hrec, contrib_append, contrib_empties]
                    simp [hein k, hein' k]
              · rw [rawFuel_short n a rest m0 hdd' hds hlen] at hr
                rw [show flagOccsFuel (n + 1) (a :: rest) =
                    (flagOccsFuel n (rest.drop (munchArgs rest).length)).map
                      (fun os => (a.drop 1, munchArgs rest) :: os) from by
                  simp [flagOccsFuel, hdd', hds, hlen]] at ho
                obtain ⟨os', ho', rfl⟩ := Option.map_eq_some'.mp ho
                have hrec := ih (rest.drop (munchArgs rest).length) _ res os'
                  (Or.inr (headIsLong_munch_drop rest)) hr ho' k
                rw [hrec, contrib_cons]
                by_cases hk : a.drop 1 = k
                · subst hk
                  rw [getKey_setEntry_self]
                  simp [List.append_assoc]
                · rw [getKey_setEntry_ne m0 _ _ _ hk, if_neg hk]
                  simp
            · have hds' : startsDash a = false := by simpa using hds
              rw [rawFuel_stuck n a rest m0 hds'] at hr
              rw [show flagOccsFuel (n + 1) (a :: rest) =
                  flagOccsFuel n (a :: rest) from by
                have h1 : startsDashDash a = false := by
                  simp [startsDashDash, hds']
                simp [flagOccsFuel, h1, hds']] at ho
              exact ih (a :: rest) m0 res os H hr ho k

/-- C3: whenever the tokenizer terminates, the final value list of every
flag key is exactly the concatenation, in order, of the values contributed
by each occurrence of that key (long flag, lone short flag, or bundled
cluster character); earlier values are never overwritten or discarded. -/
theorem values_accumulate_per_key (fuel : Nat) (args : List Token)
    (res : RawMap) (os : List (Token × List Token))
    (hr : rawArgsMapFuel fuel args [] = some res)
    (ho : flagOccsFuel fuel args = some os) :
    ∀ k, getKey res k = contrib k os := by
  intro k
  have h := c3_aux fuel args [] res os (Or.inl (fun _ => rfl)) hr ho k
  simpa [getKey, getEntry] using h

/-- Witness: the key a occurs twice as a long flag; the final mapping for a
is the concatenation of the two contributed value lists. -/
theorem values_accumulate_per_key_witness :
    getKey [(tk "a", [tk "v1", tk "v2"])] (tk "a") =
      contrib (tk "a") [(tk "a", [tk "v1"]), (tk "a", [tk "v2"])] :=
  values_accumulate_per_key 5 [tk "--a", tk "v1", tk "--a", tk "v2"]
    [(tk "a", [tk "v1", tk "v2"])]
    [(tk "a", [tk "v1"]), (tk "a", [tk "v2"])] (by decide) (by decide)
    (tk "a")

/-- The field-loop body on a field whose keys are both absent from the raw
flag map: the value is untouched and the outcome depends only on the
required bit. -/
theorem parseField_unmatched (raw : RawMap) (f : Field) (v : GoVal)
    (hexp : f.exported = true) (hanon : f.anonymous = false)
    (hname : getEntry raw (lowerName f) = none)
    (hshort : getEntry raw (parseTagData f.tag).ShortFlag = none) :
    parseField raw f v =
      if (parseTagData f.tag).Required then
        (v, some (.requiredNotSupplied (lowerName f)))
      else (v, none) := by
  simp [parseField, hexp, hanon, hname, hshort]

/-- The field-loop body on a matched pointer-typed field: storage is
allocated to the zero value of the pointee type before any value checking,
and the final pointer wraps whatever the coercion left there, error or no
error. -/
theorem parseField_found_ptr (raw : RawMap) (f : Field) (v : GoVal)
    (t : GoType) (data : List Token)
    (hexp : f.exported = true) (hanon : f.anonymous = false)
    (ht : f.type = GoType.ptr t)
    (hfound : getEntry raw (lowerName f) = some data ∨
      (getEntry raw (lowerName f) = none ∧
        getEntry raw (parseTagData f.tag).ShortFlag = some data)) :
    parseField raw f v =
      (GoVal.ptr (some (coerceAssign t data (lowerName f) (zeroVal t)).1),
        (coerceAssign t data (lowerName f) (zeroVal t)).2) := by
  rcases hfound with hname | ⟨hname, hshort⟩
  · simp [parseField, hexp, hanon, hname, ht]
  · simp [parseField, hexp, hanon, hname, hshort, ht]

/-- The field-loop body on a matched field of any non-pointer type is
exactly the type-switch coercion on the current value. -/
theorem parseField_found_nonptr (raw : RawMap) (f : Field) (v : GoVal)
    (data : List Token)
    (hexp : f.exported = true) (hanon : f.anonymous = false)
    (hfound : getEntry raw (lowerName f) = some data ∨
      (getEntry raw (lowerName f) = none ∧
        getEntry raw (parseTagData f.tag).ShortFlag = some data))
    (hpt : ∀ u, f.type ≠ GoType.ptr u) :
    parseField raw f v = coerceAssign f.type data (lowerName f) v := by
  rcases hfound with hname | ⟨hname, hshort⟩
  · cases ht : f.type
    case ptr u => exact absurd ht (hpt u)
    all_goals simp [parseField, hexp, hanon, hname, ht]
  · cases ht : f.type
    case ptr u => exact absurd ht (hpt u)
    all_goals simp [parseField, hexp, hanon, hname, hshort, ht]

/-- C5: required-field enforcement.  First: if any exported, non-embedded
field is marked required and neither its lowercased name nor its short flag
is a key of the raw flag map, the field walk fails.  Second: at such a
field the loop body reports the required-argument error naming the field
and leaves its value unchanged.  Third: an unmatched field that is not
required is skipped silently, value unchanged.  Fourth: a field whose
lowercased name is found is dispatched to coercion, and when the coercion
succeeds the loop body succeeds for that field with the coerced value. -/
theorem required_field_enforcement :
    (∀ (raw : RawMap) (rec : Record) (f : Field) (v : GoVal),
      (f, v) ∈ rec → f.exported = true → f.anonymous = false →
      (parseTagData f.tag).Required = true →
      getEntry raw (lowerName f) = none →
      getEntry raw (parseTagData f.tag).ShortFlag = none →
      (parseFields raw rec).2.isSome = true) ∧
    (∀ (raw : RawMap) (f : Field) (v : GoVal),
      f.exported = true → f.anonymous = false →
      (parseTagData f.tag).Required = true →
      getEntry raw (lowerName f) = none →
      getEntry raw (parseTagData f.tag).ShortFlag = none →
      parseField raw f v = (v, some (.requiredNotSupplied (lowerName f)))) ∧
    (∀ (raw : RawMap) (f : Field) (v : GoVal),
      f.exported = true → f.anonymous = false →
      (parseTagData f.tag).Required = false →
      getEntry raw (lowerName f) = none →
      getEntry raw (parseTagData f.tag).ShortFlag = none →
      parseField raw f v = (v, none)) ∧
    (∀ (raw : RawMap) (f : Field) (v v' : GoVal) (data : List Token),
      f.exported = true → f.anonymous = false →
      getEntry raw (lowerName f) = some data →
      (∀ u, f.type ≠ GoType.ptr u) →
      coerceAssign f.type data (lowerName f) v = (v', none) →
      parseField raw f v = (v', none)) := by
  refine ⟨?_, ?_, ?_, ?_⟩
  · intro raw rec f v hmem hexp hanon hreq hname hshort
    induction rec with
    | nil => simp at hmem
    | cons p rest ih =>
        obtain ⟨f0, v0⟩ := p
        rcases List.mem_cons.mp hmem with heq | hmem'
        · obtain ⟨rfl, rfl⟩ := Prod.mk.inj heq
          have hpf := parseField_unmatched raw f v hexp hanon hname hshort
          rw [hreq] at hpf
          simp only [if_true] at hpf
          simp [parseFields, hpf]
        · rcases hpf : parseField raw f0 v0 with ⟨v', e⟩
          cases e with
          | some err => simp [parseFields, hpf]
          | none => simpa [parseFields, hpf] using ih hmem'
  · intro raw f v hexp hanon hreq hname hshort
    have hpf := parseField_unmatched raw f v hexp hanon hname hshort
    rw [hreq] at hpf
    simpa using hpf
  · intro raw f v hexp hanon hreq hname hshort
    have hpf := parseField_unmatched raw f v hexp hanon hname hshort
    rw [hreq] at hpf
    simpa using hpf
  · intro raw f v v' data hexp hanon hget hpt hco
    rw [parseField_found_nonptr raw f v data hexp hanon (Or.inl hget) hpt, hco]

/-- Witness for the required-field theorem, on the fields of the example
program: with only the unrelated key other present, the walk over the
required field Baz fails, the loop body names baz, the optional field Foo
is skipped with its default intact, and supplying baz succeeds. -/
theorem required_field_enforcement_witness :
    (parseFields [(tk "other", [])]
        [(⟨tk "Baz", true, false, tk "a baz!,r", GoType.str⟩,
          GoVal.str [])]).2.isSome = true ∧
    parseField [(tk "other", [])]
        ⟨tk "Baz", true, false, tk "a baz!,r", GoType.str⟩ (GoVal.str []) =
      (GoVal.str [], some (.requiredNotSupplied (tk "baz"))) ∧
    parseField [(tk "other", [])]
        ⟨tk "Foo", true, false, tk "this is a foo,-f", GoType.int 64⟩
        (GoVal.int 5) =
      (GoVal.int 5, none) ∧
    parseField [(tk "baz", [tk "asdf"])]
        ⟨tk "Baz", true, false, tk "a baz!,r", GoType.str⟩ (GoVal.str []) =
      (GoVal.str (tk "asdf"), none) := by
  refine ⟨?_, ?_, ?_, ?_⟩
  · exact required_field_enforcement.1 [(tk "other", [])] _ _ (GoVal.str [])
      (List.mem_cons_self _ _) rfl rfl (by decide) (by decide) (by decide)
  · exact required_field_enforcement.2.1 [(tk "other", [])] _ (GoVal.str [])
      rfl rfl (by decide) (by decide) (by decide)
  · exact required_field_enforcement.2.2.1 [(tk "other", [])] _ (GoVal.int 5)
      rfl rfl (by decide) (by decide) (by decide)
  · exact required_field_enforcement.2.2.2 [(tk "baz", [tk "asdf"])] _
      (GoVal.str []) (GoVal.str (tk "asdf")) [tk "asdf"] rfl rfl (by decide)
      (by intro u h; cases h) rfl

/-- C6 counterexample: the claim predicts that when coercion of a present
nullable field fails, the field's destination slot is not allocated and the
field stays unset.  The code allocates the slot before coercion: parsing
the flag foo with the uncoercible value xyz into a record whose only field
is a nullable 8-bit integer returns the numeric error, yet the field ends
as an allocated pointer to the zero value, not the nil pointer. -/
theorem nullable_allocated_despite_error_counterexample :
    parseStructGo
        [(⟨tk "Foo", true, false, tk "", GoType.ptr (GoType.int 8)⟩,
          GoVal.ptr none)]
        [tk "--foo", tk "xyz"] =
      some ([(⟨tk "Foo", true, false, tk "", GoType.ptr (GoType.int 8)⟩,
          GoVal.ptr (some (GoVal.int 0)))],
        some (ArgsError.numError (tk "xyz"))) ∧
      GoVal.ptr (some (GoVal.int 0)) ≠ GoVal.ptr none := by
  exact ⟨rfl, by simp⟩

/-- C6 amended: when a nullable (pointer-typed) field's flag is present,
parseStruct allocates the field's storage immediately, zero-valued, before
any coercion runs; the coercion then works on the pointee, so on failure
the error is returned with the field pointing at the zero value (not left
unset), and on success the field points at the coerced value. -/
theorem nullable_allocation_before_coercion (raw : RawMap) (f : Field)
    (v : GoVal) (t : GoType) (data : List Token)
    (hexp : f.exported = true) (hanon : f.anonymous = false)
    (ht : f.type = GoType.ptr t)
    (hname : getEntry raw (lowerName f) = some data) :
    parseField raw f v =
      (GoVal.ptr (some (coerceAssign t data (lowerName f) (zeroVal t)).1),
        (coerceAssign t data (lowerName f) (zeroVal t)).2) :=
  parseField_found_ptr raw f v t data hexp hanon ht (Or.inl hname)

/-- Witness for the allocation theorem on the counterexample record. -/
theorem nullable_allocation_before_coercion_witness :
    parseField [(tk "foo", [tk "xyz"])]
        ⟨tk "Foo", true, false, tk "", GoType.ptr (GoType.int 8)⟩
        (GoVal.ptr none) =
      (GoVal.ptr (some (coerceAssign (GoType.int 8) [tk "xyz"] (tk "foo")
          (zeroVal (GoType.int 8))).1),
        (coerceAssign (GoType.int 8) [tk "xyz"] (tk "foo")
          (zeroVal (GoType.int 8))).2) :=
  nullable_allocation_before_coercion [(tk "foo", [tk "xyz"])]
    ⟨tk "Foo", true, false, tk "", GoType.ptr (GoType.int 8)⟩
    (GoVal.ptr none) (GoType.int 8) [tk "xyz"] rfl rfl rfl (by decide)

/-- The field-loop body on a field with no matching key either leaves the
value unchanged with no error, or fails with the required-argument error
for that field, whatever its exported or required status. -/
theorem parseField_unmatched_general (raw : RawMap) (f : Field) (v : GoVal)
    (hname : getEntry raw (lowerName f) = none)
    (hshort : getEntry raw (parseTagData f.tag).ShortFlag = none) :
    parseField raw f v = (v, none) ∨
      parseField raw f v = (v, some (.requiredNotSupplied (lowerName f))) := by
  by_cases hskip : (!f.exported || f.anonymous) = true
  · left
    simp [parseField, hskip]
  · have hskip' : (!f.exported || f.anonymous) = false := by
      simpa using hskip
    by_cases hreq : (parseTagData f.tag).Required = true
    · right
      simp [parseField, hskip', hname, hshort, hreq]
    · left
      have hreq' : (parseTagData f.tag).Required = false := by
        simpa using hreq
      simp [parseField, hskip', hname, hshort, hreq']

/-- C7: frame property of a successful parse.  When the whole field walk
succeeds, every field whose lowercased name and short flag are both absent
from the raw flag map keeps exactly its caller-supplied value at its
position: a nullable field that started as the nil pointer is still the
nil pointer (unset, never defaulted or zero-filled), and a non-nullable
field keeps its pre-populated default unchanged. -/
theorem unmatched_fields_unchanged (raw : RawMap) :
    ∀ (rec rec' : Record), parseFields raw rec = (rec', none) →
      ∀ (i : Nat) (f : Field) (v : GoVal), rec[i]? = some (f, v) →
        getEntry raw (lowerName f) = none →
        getEntry raw (parseTagData f.tag).ShortFlag = none →
        rec'[i]? = some (f, v) := by
  intro rec
  induction rec with
  | nil =>
      intro rec' hok i f v hi hname hshort
      simp only [parseFields] at hok
      obtain ⟨h1, -⟩ := Prod.mk.inj hok
      subst h1
      simp at hi
  | cons p rest ih =>
      intro rec' hok i f v hi hname hshort
      obtain ⟨f0, v0⟩ := p
      rcases hpf : parseField raw f0 v0 with ⟨v', e⟩
      cases e with
      | some err =>
          simp only [parseFields, hpf] at hok
          exact absurd (Prod.mk.inj hok).2 (by simp)
      | none =>
          simp only [parseFields, hpf] at hok
          obtain ⟨h1, h2⟩ := Prod.mk.inj hok
          subst h1
          cases i with
          | zero =>
              simp only [List.getElem?_cons_zero, Option.some.injEq] at hi
              obtain ⟨rfl, rfl⟩ := Prod.mk.inj hi.symm
              rcases parseField_unmatched_general raw f v hname hshort
                with hu | hu
              · rw [hu] at hpf
                obtain ⟨rfl, -⟩ := Prod.mk.inj hpf
                simp
              · rw [hu] at hpf
                exact absurd (Prod.mk.inj hpf).2 (by simp)
          | succ n =>
              simp only [List.getElem?_cons_succ] at hi ⊢
              exact ih (parseFields raw rest).1 (by rw [← h2]) n f v hi
                hname hshort

/-- Witness for the frame theorem: a parse that matches no field leaves a
string field's default and a nullable field's nil pointer untouched. -/
theorem unmatched_fields_unchanged_witness :
    ([(⟨tk "Foo", true, false, tk "", GoType.str⟩, GoVal.str (tk "d")),
        (⟨tk "Bar", true, false, tk "", GoType.ptr (GoType.int 8)⟩,
          GoVal.ptr none)] : Record)[0]? =
      some (⟨tk "Foo", true, false, tk "", GoType.str⟩, GoVal.str (tk "d")) ∧
    ([(⟨tk "Foo", true, false, tk "", GoType.str⟩, GoVal.str (tk "d")),
        (⟨tk "Bar", true, false, tk "", GoType.ptr (GoType.int 8)⟩,
          GoVal.ptr none)] : Record)[1]? =
      some (⟨tk "Bar", true, false, tk "", GoType.ptr (GoType.int 8)⟩,
        GoVal.ptr none) := by
  constructor
  · exact unmatched_fields_unchanged [(tk "x", [tk "1"])]
      [(⟨tk "Foo", true, false, tk "", GoType.str⟩, GoVal.str (tk "d")),
        (⟨tk "Bar", true, false, tk "", GoType.ptr (GoType.int 8)⟩,
          GoVal.ptr none)]
      [(⟨tk "Foo", true, false, tk "", GoType.str⟩, GoVal.str (tk "d")),
        (⟨tk "Bar", true, false, tk "", GoType.ptr (GoType.int 8)⟩,
          GoVal.ptr none)]
      rfl 0 ⟨tk "Foo", true, false, tk "", GoType.str⟩ (GoVal.str (tk "d"))
      rfl (by decide) (by decide)
  · exact unmatched_fields_unchanged [(tk "x", [tk "1"])]
      [(⟨tk "Foo", true, false, tk "", GoType.str⟩, GoVal.str (tk "d")),
        (⟨tk "Bar", true, false, tk "", GoType.ptr (GoType.int 8)⟩,
          GoVal.ptr none)]
      [(⟨tk "Foo", true, false, tk "", GoType.str⟩, GoVal.str (tk "d")),
        (⟨tk "Bar", true, false, tk "", GoType.ptr (GoType.int 8)⟩,
          GoVal.ptr none)]
      rfl 1 ⟨tk "Bar", true, false, tk "", GoType.ptr (GoType.int 8)⟩
      (GoVal.ptr none) rfl (by decide) (by decide)

/-- Reductions of checkArgLen at each cardinality. -/
theorem checkArgLen_nil (name : Token) :
    checkArgLen [] name = some (.notSet name) := rfl

theorem checkArgLen_single (d name : Token) : checkArgLen [d] name = none :=
  rfl

theorem checkArgLen_many (d1 d2 : Token) (ds : List Token) (name : Token) :
    checkArgLen (d1 :: d2 :: ds) name = some (.moreThanOnce name) := by
  have h1 : ¬ (d1 :: d2 :: ds).length = 0 := by simp
  have h2 : 1 < (d1 :: d2 :: ds).length := by
    simp only [List.length_cons]
    omega
  simp [checkArgLen, h1, h2]

/-- C9 counterexample: the claim states a scalar field is assigned iff
exactly one raw value was collected.  Here the 8-bit integer field foo
collected exactly one raw value, the uncoercible xyz, yet it is not
assigned: the loop body returns the numeric error and the field keeps its
caller value 7. -/
theorem scalar_single_value_not_assigned_counterexample :
    parseField [(tk "foo", [tk "xyz"])]
        ⟨tk "Foo", true, false, tk "", GoType.int 8⟩ (GoVal.int 7) =
      (GoVal.int 7, some (ArgsError.numError (tk "xyz"))) ∧
      ([tk "xyz"] : List Token).length = 1 :=
  ⟨rfl, rfl⟩

/-- C9 amended: for a matched field, a string field is assigned iff exactly
one raw value was collected, and a numeric field iff exactly one raw value
was collected and that value parses for the field's width; zero values give
the specified-but-not-set error, two or more give the specified-more-than-
once error, a single unparsable numeric value gives the numeric error with
no assignment; a boolean field is set to true iff zero raw values were
collected, and any raw value gives the boolean-parameter error. -/
theorem scalar_cardinality_and_assignment (raw : RawMap) (f : Field)
    (v : GoVal) (data : List Token)
    (hexp : f.exported = true) (hanon : f.anonymous = false)
    (hget : getEntry raw (lowerName f) = some data) :
    (f.type = GoType.str →
      (∀ d, data = [d] → parseField raw f v = (GoVal.str d, none)) ∧
      (data = [] →
        parseField raw f v = (v, some (.notSet (lowerName f)))) ∧
      (∀ d1 d2 ds, data = d1 :: d2 :: ds →
        parseField raw f v = (v, some (.moreThanOnce (lowerName f))))) ∧
    (∀ bits, f.type = GoType.int bits →
      (∀ d n, data = [d] → parseIntGo d bits = some n →
        parseField raw f v = (GoVal.int n, none)) ∧
      (∀ d, data = [d] → parseIntGo d bits = none →
        parseField raw f v = (v, some (.numError d))) ∧
      (data = [] →
        parseField raw f v = (v, some (.notSet (lowerName f)))) ∧
      (∀ d1 d2 ds, data = d1 :: d2 :: ds →
        parseField raw f v = (v, some (.moreThanOnce (lowerName f))))) ∧
    (∀ bits, f.type = GoType.uint bits →
      (∀ d n, data = [d] → parseUintGo d bits = some n →
        parseField raw f v = (GoVal.uint n, none)) ∧
      (∀ d, data = [d] → parseUintGo d bits = none →
        parseField raw f v = (v, some (.numError d))) ∧
      (data = [] →
        parseField raw f v = (v, some (.notSet (lowerName f)))) ∧
      (∀ d1 d2 ds, data = d1 :: d2 :: ds →
        parseField raw f v = (v, some (.moreThanOnce (lowerName f))))) ∧
    (∀ bits, f.type = GoType.float bits →
      (∀ d, data = [d] → parseFloatGo d = true →
        parseField raw f v = (GoVal.float d, none)) ∧
      (∀ d, data = [d] → parseFloatGo d = false →
        parseField raw f v = (v, some (.numError d))) ∧
      (data = [] →
        parseField raw f v = (v, some (.notSet (lowerName f)))) ∧
      (∀ d1 d2 ds, data = d1 :: d2 :: ds →
        parseField raw f v = (v, some (.moreThanOnce (lowerName f))))) ∧
    (f.type = GoType.bool →
      (data = [] → parseField raw f v = (GoVal.bool true, none)) ∧
      (∀ d ds, data = d :: ds →
        parseField raw f v = (v, some (.boolHasParameter (lowerName f))))) := by
  refine ⟨?_, ?_, ?_, ?_, ?_⟩
  · intro ht
    have hpt : ∀ u, f.type ≠ GoType.ptr u := by
      intro u h
      rw [ht] at h
      simp at h
    have hpf := parseField_found_nonptr raw f v data hexp hanon (Or.inl hget)
      hpt
    rw [ht] at hpf
    refine ⟨?_, ?_, ?_⟩
    · intro d hd
      subst hd
      rw [hpf]
      simp [coerceAssign, checkArgLen_single]
    · intro hd
      subst hd
      rw [hpf]
      simp [coerceAssign, checkArgLen_nil]
    · intro d1 d2 ds hd
      subst hd
      rw [hpf]
      simp [coerceAssign, checkArgLen_many]
  · intro bits ht
    have hpt : ∀ u, f.type ≠ GoType.ptr u := by
      intro u h
      rw [ht] at h
      simp at h
    have hpf := parseField_found_nonptr raw f v data hexp hanon (Or.inl hget)
      hpt
    rw [ht] at hpf
    refine ⟨?_, ?_, ?_, ?_⟩
    · intro d n hd hn
      subst hd
      rw [hpf]
      simp [coerceAssign, checkArgLen_single, hn]
    · intro d hd hn
      subst hd
      rw [hpf]
      simp [coerceAssign, checkArgLen_single, hn]
    · intro hd
      subst hd
      rw [hpf]
      simp [coerceAssign, checkArgLen_nil]
    · intro d1 d2 ds hd
      subst hd
      rw [hpf]
      simp [coerceAssign, checkArgLen_many]
  · intro bits ht
    have hpt : ∀ u, f.type ≠ GoType.ptr u := by
      intro u h
      rw [ht] at h
      simp at h
    have hpf := parseField_found_nonptr raw f v data hexp hanon (Or.inl hget)
      hpt
    rw [ht] at hpf
    refine ⟨?_, ?_, ?_, ?_⟩
    · intro d n hd hn
      subst hd
      rw [hpf]
      simp [coerceAssign, checkArgLen_single, hn]
    · intro d hd hn
      subst hd
      rw [hpf]
      simp [coerceAssign, checkArgLen_single, hn]
    · intro hd
      subst hd
      rw [hpf]
      simp [coerceAssign, checkArgLen_nil]
    · intro d1 d2 ds hd
      subst hd
      rw [hpf]
      simp [coerceAssign, checkArgLen_many]
  · intro bits ht
    have hpt : ∀ u, f.type ≠ GoType.ptr u := by
      intro u h
      rw [ht] at h
      simp at h
    have hpf := parseField_found_nonptr raw f v data hexp hanon (Or.inl hget)
      hpt
    rw [ht] at hpf
    refine ⟨?_, ?_, ?_, ?_⟩
    · intro d hd hfl
      subst hd
      rw [hpf]
      simp [coerceAssign, checkArgLen_single, hfl]
    · intro d hd hfl
      subst hd
      rw [hpf]
      simp [coerceAssign, checkArgLen_single, hfl]
    · intro hd
      subst hd
      rw [hpf]
      simp [coerceAssign, checkArgLen_nil]
    · intro d1 d2 ds hd
      subst hd
      rw [hpf]
      simp [coerceAssign, checkArgLen_many]
  · intro ht
    have hpt : ∀ u, f.type ≠ GoType.ptr u := by
      intro u h
      rw [ht] at h
      simp at h
    have hpf := parseField_found_nonptr raw f v data hexp hanon (Or.inl hget)
      hpt
    rw [ht] at hpf
    constructor
    · intro hd
      subst hd
      rw [hpf]
      simp [coerceAssign]
    · intro d ds hd
      subst hd
      rw [hpf]
      simp [coerceAssign]

/-- Witness for the cardinality theorem at concrete fields: a string field
with one value is assigned, an integer field with the single value 5 is
assigned 5, with no value it reports not-set, with two values it reports
more-than-once, and a boolean field with no value is set to true. -/
theorem scalar_cardinality_and_assignment_witness :
    parseField [(tk "foo", [tk "bar"])]
        ⟨tk "Foo", true, false, tk "", GoType.str⟩ (GoVal.str []) =
      (GoVal.str (tk "bar"), none) ∧
    parseField [(tk "foo", [tk "5"])]
        ⟨tk "Foo", true, false, tk "", GoType.int 64⟩ (GoVal.int 0) =
      (GoVal.int 5, none) ∧
    parseField [(tk "foo", [])]
        ⟨tk "Foo", true, false, tk "", GoType.int 64⟩ (GoVal.int 0) =
      (GoVal.int 0, some (.notSet (tk "foo"))) ∧
    parseField [(tk "foo", [tk "5", tk "6"])]
        ⟨tk "Foo", true, false, tk "", GoType.int 64⟩ (GoVal.int 0) =
      (GoVal.int 0, some (.moreThanOnce (tk "foo"))) ∧
    parseField [(tk "foo", [])]
        ⟨tk "Foo", true, false, tk "", GoType.bool⟩ (GoVal.bool false) =
      (GoVal.bool true, none) := by
  refine ⟨?_, ?_, ?_, ?_, ?_⟩
  · exact ((scalar_cardinality_and_assignment [(tk "foo", [tk "bar"])]
      ⟨tk "Foo", true, false, tk "", GoType.str⟩ (GoVal.str [])
      [tk "bar"] rfl rfl (by decide)).1 rfl).1 (tk "bar") rfl
  · exact (((scalar_cardinality_and_assignment [(tk "foo", [tk "5"])]
      ⟨tk "Foo", true, false, tk "", GoType.int 64⟩ (GoVal.int 0)
      [tk "5"] rfl rfl (by decide)).2.1 64 rfl).1) (tk "5") 5 rfl (by decide)
  · exact (((scalar_cardinality_and_assignment [(tk "foo", [])]
      ⟨tk "Foo", true, false, tk "", GoType.int 64⟩ (GoVal.int 0)
      [] rfl rfl (by decide)).2.1 64 rfl).2.2.1) rfl
  · exact (((scalar_cardinality_and_assignment [(tk "foo", [tk "5", tk "6"])]
      ⟨tk "Foo", true, false, tk "", GoType.int 64⟩ (GoVal.int 0)
      [tk "5", tk "6"] rfl rfl (by decide)).2.1 64 rfl).2.2.2)
      (tk "5") (tk "6") [] rfl
  · exact ((scalar_cardinality_and_assignment [(tk "foo", [])]
      ⟨tk "Foo", true, false, tk "", GoType.bool⟩ (GoVal.bool false)
      [] rfl rfl (by decide)).2.2.2.2 rfl).1 rfl

/-- A key of the map after an assignment is the assigned key or an old
key. -/
theorem mem_keys_setEntry (m : RawMap) (k a : Token)
    (v : List Token) (h : a ∈ (setEntry m k v).map Prod.fst) :
    a = k ∨ a ∈ m.map Prod.fst := by
  induction m with
  | nil =>
      simp [setEntry] at h
      exact Or.inl h
  | cons p rest ih =>
      obtain ⟨k0, w⟩ := p
      by_cases h0 : k0 = k
      · subst h0
        simp [setEntry] at h
        exact Or.inr (by simpa using h)
      · simp [setEntry, h0] at h
        rcases h with h | h
        · exact Or.inr (by simp [h])
        · obtain ⟨x, hx⟩ := h
          rcases ih (List.mem_map_of_mem Prod.fst hx) with h | h
          · exact Or.inl h
          · exact Or.inr (by simp [h])

/-- Assignment preserves distinctness of the keys. -/
theorem nodup_keys_setEntry (m : RawMap) (k : Token)
    (v : List Token) (h : (m.map Prod.fst).Nodup) :
    ((setEntry m k v).map Prod.fst).Nodup := by
  induction m with
  | nil => simp [setEntry]
  | cons p rest ih =>
      obtain ⟨k0, w⟩ := p
      simp only [List.map_cons, List.nodup_cons] at h
      obtain ⟨hnk, hnd⟩ := h
      by_cases h0 : k0 = k
      · subst h0
        simp only [setEntry, List.map_cons, List.nodup_cons, if_true,
          eq_self_iff_true]
        exact ⟨hnk, hnd⟩
      · simp only [setEntry, List.map_cons, List.nodup_cons, if_neg h0]
        refine ⟨?_, ih hnd⟩
        intro hmem
        rcases mem_keys_setEntry rest k k0 v hmem with h | h
        · exact h0 h
        · exact hnk h

/-- Registering cluster characters preserves distinctness of the keys. -/
theorem nodup_keys_foldl (cs : List Char) (m : RawMap)
    (h : (m.map Prod.fst).Nodup) :
    ((cs.foldl (fun m c => setEntry m [c] []) m).map Prod.fst).Nodup := by
  induction cs generalizing m with
  | nil => exact h
  | cons c rest ih => exact ih _ (nodup_keys_setEntry m [c] [] h)

/-- The tokenizer's raw flag map always has pairwise distinct keys. -/
theorem rawArgsMapFuel_keys_nodup (fuel : Nat) : ∀ (args : List Token)
    (m res : RawMap), (m.map Prod.fst).Nodup →
    rawArgsMapFuel fuel args m = some res →
    (res.map Prod.fst).Nodup := by
  induction fuel with
  | zero =>
      intro args m res h hr
      cases args with
      | nil =>
          simp only [rawArgsMapFuel, Option.some.injEq] at hr
          subst hr
          exact h
      | cons a rest => simp [rawArgsMapFuel] at hr
  | succ n ih =>
      intro args m res h hr
      cases args with
      | nil =>
          simp only [rawArgsMapFuel, Option.some.injEq] at hr
          subst hr
          exact h
      | cons a rest =>
          by_cases hdd : startsDashDash a = true
          · rw [rawFuel_long n a rest m hdd] at hr
            exact ih _ _ _ (nodup_keys_setEntry _ _ _ h) hr
          · by_cases hds : startsDash a = true
            · have hdd' : startsDashDash a = false := by simpa using hdd
              by_cases hlen : 2 < a.length
              · rw [rawFuel_cluster n a rest m hdd' hds hlen] at hr
                exact ih _ _ _ (nodup_keys_foldl _ _ h) hr
              · rw [rawFuel_short n a rest m hdd' hds hlen] at hr
                exact ih _ _ _ (nodup_keys_setEntry _ _ _ h) hr
            · have hds' : startsDash a = false := by simpa using hds
              rw [rawFuel_stuck n a rest m hds'] at hr
              exact ih _ _ _ h hr

/-- Key distinctness for a completed tokenizer run. -/
theorem rawArgsMap_keys_nodup (args : List Token) (raw : RawMap)
    (h : rawArgsMap args = some raw) : (raw.map Prod.fst).Nodup :=
  rawArgsMapFuel_keys_nodup _ args [] raw (by simp) h

/-- With distinct keys, membership determines the lookup. -/
theorem getEntry_of_mem_nodup (l : RawMap) (k : Token)
    (v : List Token) (hnd : (l.map Prod.fst).Nodup) (hmem : (k, v) ∈ l) :
    getEntry l k = some v := by
  induction l with
  | nil => simp at hmem
  | cons p rest ih =>
      obtain ⟨k0, v0⟩ := p
      simp only [List.map_cons, List.nodup_cons] at hnd
      obtain ⟨hk0, hnd'⟩ := hnd
      rcases List.mem_cons.mp hmem with heq | hmem'
      · obtain ⟨rfl, rfl⟩ := Prod.mk.inj heq
        simp [getEntry]
      · have hne : k0 ≠ k := by
          intro h
          subst h
          exact hk0 (by simpa using List.mem_map_of_mem Prod.fst hmem')
        simp [getEntry, hne, ih hnd' hmem']

/-- One step of the interface branch registers exactly the inferred value
for the key. -/
theorem parseMapIface_cons (k : Token) (vs : List Token) (rest : RawMap)
    (m : DynMap) :
    parseMapIface ((k, vs) :: rest) m =
      parseMapIface rest (setEntry m k (ifaceVal vs)) := by
  match vs with
  | [] => rfl
  | [v] => rfl
  | v1 :: v2 :: vs' => rfl

/-- The interface branch of parseMap has no error path. -/
theorem parseMapIface_snd (raw : RawMap) : ∀ m : DynMap,
    (parseMapIface raw m).2 = none := by
  induction raw with
  | nil => intro m; rfl
  | cons p rest ih =>
      intro m
      obtain ⟨k, vs⟩ := p
      rw [parseMapIface_cons]
      exact ih _

/-- A key that is never iterated keeps its incoming binding. -/
theorem parseMapIface_getEntry_notmem (raw : RawMap) : ∀ (m : DynMap)
    (k : Token), k ∉ raw.map Prod.fst →
    getEntry (parseMapIface raw m).1 k = getEntry m k := by
  induction raw with
  | nil => intro m k _; rfl
  | cons p rest ih =>
      intro m k hk
      obtain ⟨k0, vs⟩ := p
      simp only [List.map_cons, List.mem_cons, not_or] at hk
      rw [parseMapIface_cons, ih _ k hk.2]
      exact getEntry_setEntry_ne m k0 k _ (fun h => hk.1 h.symm)

/-- With distinct keys, every entry of the raw flag map ends bound to its
inferred value. -/
theorem parseMapIface_getEntry_mem (raw : RawMap) : ∀ (m : DynMap)
    (k : Token) (vs : List Token), (raw.map Prod.fst).Nodup →
    (k, vs) ∈ raw →
    getEntry (parseMapIface raw m).1 k = some (ifaceVal vs) := by
  induction raw with
  | nil =>
      intro m k vs _ hmem
      simp at hmem
  | cons p rest ih =>
      intro m k vs hnd hmem
      obtain ⟨k0, vs0⟩ := p
      simp only [List.map_cons, List.nodup_cons] at hnd
      obtain ⟨hk0, hnd'⟩ := hnd
      rcases List.mem_cons.mp hmem with heq | hmem'
      · obtain ⟨rfl, rfl⟩ := Prod.mk.inj heq
        rw [parseMapIface_cons, parseMapIface_getEntry_notmem rest _ k hk0]
        exact getEntry_setEntry_self m k _
      · rw [parseMapIface_cons]
        exact ih _ k vs hnd' hmem'

/-- C8: for a dynamic-valued dictionary, parsing never errors, and every
key of the raw flag mapping ends bound to the inferred value of its raw
value list: a presence marker for zero values, the try-integer-then-float-
then-string inference for exactly one value, and the full raw string list
for more than one value. -/
theorem dyn_dictionary_inference (args : List Token) (raw : RawMap)
    (m0 : DynMap) (hr : rawArgsMap args = some raw) :
    (parseMapIface raw m0).2 = none ∧
      ∀ k vs, (k, vs) ∈ raw →
        getEntry (parseMapIface raw m0).1 k = some (ifaceVal vs) := by
  refine ⟨parseMapIface_snd raw m0, ?_⟩
  intro k vs hmem
  exact parseMapIface_getEntry_mem raw m0 k vs
    (rawArgsMap_keys_nodup args raw hr) hmem

/-- Witness on the spec's own example input: foo becomes the integer 5,
bar the float literal 10.5, baz the presence marker, with no error. -/
theorem dyn_dictionary_inference_witness :
    (parseMapIface [(tk "foo", [tk "5"]), (tk "bar", [tk "10.5"]),
        (tk "baz", [])] []).2 = none ∧
    getEntry (parseMapIface [(tk "foo", [tk "5"]), (tk "bar", [tk "10.5"]),
        (tk "baz", [])] []).1 (tk "foo") = some (DynVal.int 5) ∧
    getEntry (parseMapIface [(tk "foo", [tk "5"]), (tk "bar", [tk "10.5"]),
        (tk "baz", [])] []).1 (tk "bar") = some (DynVal.float (tk "10.5")) ∧
    getEntry (parseMapIface [(tk "foo", [tk "5"]), (tk "bar", [tk "10.5"]),
        (tk "baz", [])] []).1 (tk "baz") = some DynVal.present := by
  have h := dyn_dictionary_inference
    [tk "--foo", tk "5", tk "--bar", tk "10.5", tk "--baz"]
    [(tk "foo", [tk "5"]), (tk "bar", [tk "10.5"]), (tk "baz", [])] []
    (by decide)
  exact ⟨h.1, h.2 (tk "foo") [tk "5"] (by decide),
    h.2 (tk "bar") [tk "10.5"] (by decide), h.2 (tk "baz") [] (by decide)⟩

/-- When the string branch aborts with the more-than-once error for a key,
that key had already been assigned a value in that very iteration. -/
theorem parseMapString_err_mem (raw : RawMap) : ∀ (m0 m : StrMap)
    (k : Token),
    parseMapString raw m0 = (m, some (ArgsError.mapMoreThanOnce k)) →
    ∃ vs, (k, vs) ∈ raw ∧ 1 < vs.length ∧
      getEntry m k = some (vs.headD []) := by
  induction raw with
  | nil =>
      intro m0 m k h
      simp [parseMapString] at h
  | cons p rest ih =>
      intro m0 m k h
      obtain ⟨k0, vs0⟩ := p
      by_cases hl : 1 < vs0.length
      · cases vs0 with
        | nil => simp at hl
        | cons v vs0' =>
            simp only [parseMapString, if_pos hl] at h
            obtain ⟨h1, h2⟩ := Prod.mk.inj h
            obtain rfl : k0 = k := by simpa using h2
            refine ⟨v :: vs0', List.mem_cons_self _ _, hl, ?_⟩
            rw [← h1]
            exact getEntry_setEntry_self m0 k0 v
      · simp only [parseMapString, if_neg hl] at h
        obtain ⟨vs, hmem, hlen, hget⟩ := ih _ m k h
        exact ⟨vs, List.mem_cons_of_mem _ hmem, hlen, hget⟩

/-- C10: when parsing into a string-valued dictionary returns the
specified-more-than-once error for a key, the destination map is not left
unchanged: the offending key has already been assigned the first of its raw
values before the error is returned (keys iterated earlier keep whatever
was assigned to them as well, since the walk stops at the error). -/
theorem string_dictionary_partial_assignment (args : List Token)
    (raw : RawMap) (m0 m : StrMap) (k : Token)
    (hr : rawArgsMap args = some raw)
    (h : parseMapString raw m0 = (m, some (ArgsError.mapMoreThanOnce k))) :
    1 < (getKey raw k).length ∧
      getEntry m k = some ((getKey raw k).headD []) := by
  obtain ⟨vs, hmem, hlen, hget⟩ := parseMapString_err_mem raw m0 m k h
  have hnd := rawArgsMap_keys_nodup args raw hr
  have he := getEntry_of_mem_nodup raw k vs hnd hmem
  constructor
  · simpa [getKey, he] using hlen
  · simpa [getKey, he] using hget

/-- Witness: the flag foo given twice aborts the string-dictionary parse
but leaves foo bound to its first value a. -/
theorem string_dictionary_partial_assignment_witness :
    1 < (getKey [(tk "foo", [tk "a", tk "b"])] (tk "foo")).length ∧
      getEntry [(tk "foo", tk "a")] (tk "foo") =
        some ((getKey [(tk "foo", [tk "a", tk "b"])] (tk "foo")).headD []) :=
  string_dictionary_partial_assignment
    [tk "--foo", tk "a", tk "--foo", tk "b"]
    [(tk "foo", [tk "a", tk "b"])] [] [(tk "foo", tk "a")] (tk "foo")
    (by decide) (by decide)

end ArgsGo
